import Mathlib

/-!
# Verification of the react-mosaic-component tree core

The repository ships only its test suites under `src/`; the implementation
modules (`src/util/mosaicUtilities`, `src/util/mosaicUpdates`,
`src/util/BoundingBox`, the `Mosaic` validation layer) are not present.
Every definition below is therefore modelled from the specification
(`spec.md`), with the in-repository tests used as concrete oracles where
they exercise the modelled functions.

JavaScript numbers are modelled as rationals (`ℚ`); fallible operations
return `Except String` mirroring synchronous `throw`.
-/

namespace Mosaic

/-- Modelled from the spec: split direction of a Parent node.
`row` divides left/right; `column` divides top/bottom. -/
inductive Direction : Type
  | row : Direction
  | column : Direction
  deriving DecidableEq, Repr

/-- Modelled from the spec: a branch selector, `first` or `second`. -/
inductive Branch : Type
  | first : Branch
  | second : Branch
  deriving DecidableEq, Repr

/-- Modelled from the spec: `getOtherDirection(direction)`: `row ↔ column`,
restricted to the two-element enum (used internally by the engine). -/
def Direction.other : Direction → Direction
  | .row => .column
  | .column => .row

/-- Modelled from the spec: `getOtherBranch(branch)`: `first ↔ second`,
restricted to the two-element enum (used internally by the engine). -/
def Branch.other : Branch → Branch
  | .first => .second
  | .second => .first

/-- Modelled from the spec: `MosaicNode<K>` — either a Leaf holding an opaque
key `K`, or a Parent with a direction, two children, and an optional
`splitPercentage` in [0,100] (defaulting to 50 when absent). -/
inductive MosaicNode (K : Type) : Type
  | leaf (key : K) : MosaicNode K
  | parent (direction : Direction) (first second : MosaicNode K)
      (splitPercentage : Option ℚ) : MosaicNode K
  deriving DecidableEq, Repr

variable {K : Type}

/-- Modelled from the spec: `isParent(node)` — structural discriminator. -/
def isParent : MosaicNode K → Bool
  | .leaf _ => false
  | .parent _ _ _ _ => true

/-- Modelled from the spec: `getLeaves(node)` — all leaf keys in depth-first
order, first subtree then second subtree. -/
def getLeaves : MosaicNode K → List K
  | .leaf k => [k]
  | .parent _ f s _ => getLeaves f ++ getLeaves s

/-- Modelled from the spec: `getLeaves` on a possibly-null tree: a null tree
has no leaves. -/
def getLeavesOpt : Option (MosaicNode K) → List K
  | none => []
  | some t => getLeaves t

/-- Modelled from the spec: `getNodeAtPath(node, path)` — walks `path` from
`node`; `none` if the path descends into a Leaf before being exhausted;
the addressed node at the end of a fully-consumed valid path. -/
def getNodeAtPath : MosaicNode K → List Branch → Option (MosaicNode K)
  | n, [] => some n
  | .parent _ f _ _, .first :: rest => getNodeAtPath f rest
  | .parent _ _ s _, .second :: rest => getNodeAtPath s rest
  | .leaf _, _ :: _ => none

/-- Modelled from the spec: `getAndAssertNodeAtPathExists(node, path)` — as
`getNodeAtPath` but fails with a descriptive error when the path does not
resolve. -/
def getAndAssertNodeAtPathExists (t : MosaicNode K) (path : List Branch) :
    Except String (MosaicNode K) :=
  match getNodeAtPath t path with
  | some n => .ok n
  | none => .error "Path did not resolve to a node in the tree"

/-- Modelled from the spec: the string-level `getOtherBranch` as callers see
it at the JS runtime (branch tokens are strings); fails with an error for
any value outside the two-element enum. -/
def getOtherBranch (branch : String) : Except String String :=
  if branch = "first" then .ok "second"
  else if branch = "second" then .ok "first"
  else .error ("Branch " ++ branch ++ " not a valid branch")

/-- Modelled from the spec: the string-level `getOtherDirection`:
`row ↔ column`, failing with an error for any value outside the two-element
enum (spec §7: never silently coerced). -/
def getOtherDirection (direction : String) : Except String String :=
  if direction = "row" then .ok "column"
  else if direction = "column" then .ok "row"
  else .error ("Direction " ++ direction ++ " not a valid direction")

/-- Modelled from the spec: `createBalancedTreeFromLeaves(leaves,
firstDirection)` — recursively splits the leaf list roughly in half
(first half of ⌈n/2⌉ keys, second half the rest), pairing the halves under a
Parent whose direction alternates with depth starting at `firstDirection`; a
single-element input returns that leaf directly; empty input fails fast. -/
def createBalancedTreeFromLeaves : List K → Direction → Except String (MosaicNode K)
  | [], _ => .error "Cannot create a balanced tree with no leaves"
  | [k], _ => .ok (.leaf k)
  | k1 :: k2 :: rest, d =>
    let n := (k1 :: k2 :: rest).length
    match createBalancedTreeFromLeaves ((k1 :: k2 :: rest).take ((n + 1) / 2)) d.other,
        createBalancedTreeFromLeaves ((k1 :: k2 :: rest).drop ((n + 1) / 2)) d.other with
    | .ok f, .ok s => .ok (.parent d f s none)
    | .error e, _ => .error e
    | _, .error e => .error e
  termination_by l => l.length
  decreasing_by
  · simp only [List.length_take, List.length_cons]
    omega
  · simp only [List.length_drop, List.length_cons]
    omega

/-- Modelled from the spec: a drop position for drag gestures. -/
inductive DropPosition : Type
  | top : DropPosition
  | bottom : DropPosition
  | left : DropPosition
  | right : DropPosition
  deriving DecidableEq, Repr

/-- Modelled from the spec: a `PatchSpec` applied at a path — `$set`
(replace the node) or a field-level update of `splitPercentage`; `noop`
models the empty patch `{}` (used by `createExpandUpdate` on an empty path). -/
inductive MosaicUpdateSpec (K : Type) : Type
  | set (node : MosaicNode K) : MosaicUpdateSpec K
  | setSplitPercentage (p : ℚ) : MosaicUpdateSpec K
  | noop : MosaicUpdateSpec K
  deriving DecidableEq, Repr

/-- Modelled from the spec: an Update is `{path, spec}`. -/
structure MosaicUpdate (K : Type) : Type where
  path : List Branch
  spec : MosaicUpdateSpec K
  deriving DecidableEq, Repr

/-- Modelled from the spec: apply a `PatchSpec` to the node it addresses. -/
def applySpec : MosaicNode K → MosaicUpdateSpec K → Except String (MosaicNode K)
  | _, .set n => .ok n
  | .parent d f s _, .setSplitPercentage p => .ok (.parent d f s (some p))
  | .leaf _, .setSplitPercentage _ => .error "Cannot set splitPercentage of a leaf"
  | n, .noop => .ok n

/-- Modelled from the spec: apply one Update — clone-on-path down to the
target, apply the spec there, share everything else; fails if the path
descends into a Leaf before being exhausted. -/
def applyUpdateAt : MosaicNode K → List Branch → MosaicUpdateSpec K →
    Except String (MosaicNode K)
  | n, [], spec => applySpec n spec
  | .parent d f s sp, .first :: rest, spec =>
    match applyUpdateAt f rest spec with
    | .ok f' => .ok (.parent d f' s sp)
    | .error e => .error e
  | .parent d f s sp, .second :: rest, spec =>
    match applyUpdateAt s rest spec with
    | .ok s' => .ok (.parent d f s' sp)
    | .error e => .error e
  | .leaf _, _ :: _, _ => .error "Update path does not exist in the tree"

/-- Modelled from the spec: `updateTree(root, updates)` — applies the
Updates in order, each against the result of the previous. -/
def updateTree : MosaicNode K → List (MosaicUpdate K) → Except String (MosaicNode K)
  | t, [] => .ok t
  | t, u :: rest =>
    match applyUpdateAt t u.path u.spec with
    | .ok t' => updateTree t' rest
    | .error e => .error e

/-- Modelled from the spec: `createRemoveUpdate(root, path)` — removes the
node at `path`, promoting its sibling to the former parent's position; fails
with an error when the path is empty or its sibling does not resolve. -/
def createRemoveUpdate (root : MosaicNode K) (path : List Branch) :
    Except String (MosaicUpdate K) :=
  match path.getLast? with
  | none => .error "Cannot remove the root of the tree"
  | some b =>
    match getAndAssertNodeAtPathExists root (path.dropLast ++ [b.other]) with
    | .ok sibling => .ok ⟨path.dropLast, .set sibling⟩
    | .error e => .error e

/-- Modelled from the spec: `createHideUpdate(path)` — sets the parent of
`path`'s target so the hidden node gets zero space: `splitPercentage` 0 when
the hidden node is the `first` branch, 100 when it is the `second`. -/
def createHideUpdate (path : List Branch) : MosaicUpdate K :=
  ⟨path.dropLast,
    .setSplitPercentage (if path.getLast? = some .first then 0 else 100)⟩

/-- Modelled from the spec: `createExpandUpdate(path, percentage)` — sets
the parent so the node at `path` receives `percentage` if it is `first`, or
`100 - percentage` if it is `second`; an empty path is a no-op. -/
def createExpandUpdate (path : List Branch) (percentage : ℚ) : MosaicUpdate K :=
  match path.getLast? with
  | some .first => ⟨path.dropLast, .setSplitPercentage percentage⟩
  | some .second => ⟨path.dropLast, .setSplitPercentage (100 - percentage)⟩
  | none => ⟨[], .noop⟩

/-- Modelled from the spec: paths agree on their first `n` entries
(lodash `isEqual(take(a, n), take(b, n))`). -/
def isPathPrefixEqual (a b : List Branch) (n : Nat) : Bool :=
  a.take n == b.take n

/-- Modelled from the spec: the Parent wrapping {source, destination} in the
order and direction implied by the drop position: LEFT ⇒ row {source,
destination}; RIGHT ⇒ row {destination, source}; TOP ⇒ column {source,
destination}; BOTTOM ⇒ column {destination, source}. -/
def mkDragParent (position : DropPosition) (sourceNode destinationNode : MosaicNode K) :
    MosaicNode K :=
  let direction : Direction :=
    match position with
    | .left => .row
    | .right => .row
    | .top => .column
    | .bottom => .column
  match position with
  | .left => .parent direction sourceNode destinationNode none
  | .top => .parent direction sourceNode destinationNode none
  | .right => .parent direction destinationNode sourceNode none
  | .bottom => .parent direction destinationNode sourceNode none

/-- Modelled from the spec: `createDragToUpdates(root, sourcePath,
destinationPath, position)` — typically two Updates: remove the source via
sibling promotion, then `$set` at the destination a new Parent wrapping
{source, destination} per the drop position.  When the destination is an
ancestor of the source, both updates are computed against the original tree
and resolved into a single `$set` (the captured destination node has the
source removed from it first); otherwise the destination path is adjusted
for the structural shift caused by removing the source first (the branch
segment at the promoted parent's depth is spliced out when the destination
passes through the removed node's parent). -/
def createDragToUpdates (root : MosaicNode K) (sourcePath destinationPath : List Branch)
    (position : DropPosition) : Except String (List (MosaicUpdate K)) :=
  match getAndAssertNodeAtPathExists root destinationPath with
  | .error e => .error e
  | .ok destinationNode =>
    match getAndAssertNodeAtPathExists root sourcePath with
    | .error e => .error e
    | .ok sourceNode =>
      if isPathPrefixEqual sourcePath destinationPath destinationPath.length then
        match createRemoveUpdate destinationNode
            (sourcePath.drop destinationPath.length) with
        | .error e => .error e
        | .ok removeUpdate =>
          match updateTree destinationNode [removeUpdate] with
          | .error e => .error e
          | .ok destinationNode' =>
            .ok [⟨destinationPath,
              .set (mkDragParent position sourceNode destinationNode')⟩]
      else
        match createRemoveUpdate root sourcePath with
        | .error e => .error e
        | .ok removeUpdate =>
          let destinationPath' :=
            if isPathPrefixEqual sourcePath destinationPath (sourcePath.length - 1) then
              destinationPath.take (sourcePath.length - 1) ++
                destinationPath.drop sourcePath.length
            else destinationPath
          .ok [removeUpdate,
            ⟨destinationPath', .set (mkDragParent position sourceNode destinationNode)⟩]

/-- Modelled from the spec: a BoundingBox `{top, right, bottom, left}`, each
a percentage-of-container offset from that edge. -/
structure BoundingBox : Type where
  top : ℚ
  right : ℚ
  bottom : ℚ
  left : ℚ
  deriving DecidableEq, Repr

/-- Modelled from the spec: `getAbsoluteSplitPercentage(box, p, direction)`
— for column: `box.top + p * (100 - box.top - box.bottom) / 100`;
symmetrically with left/right for row. -/
def getAbsoluteSplitPercentage (box : BoundingBox) (p : ℚ) (d : Direction) : ℚ :=
  match d with
  | .column => box.top + p * (100 - box.top - box.bottom) / 100
  | .row => box.left + p * (100 - box.right - box.left) / 100

/-- Modelled from the spec: `getRelativeSplitPercentage` — the inverse map:
recovers the percentage relative to the box's local span. -/
def getRelativeSplitPercentage (box : BoundingBox) (absolute : ℚ) (d : Direction) : ℚ :=
  match d with
  | .column => (absolute - box.top) * 100 / (100 - box.top - box.bottom)
  | .row => (absolute - box.left) * 100 / (100 - box.right - box.left)

/-- Modelled from the spec: the presentation layer's leaf-uniqueness check —
a 1:1 mapping from leaf key to rendered element requires pairwise-distinct
leaf keys; duplicates surface as an explicit "Duplicate IDs" error. -/
def validateLeafUniqueness [DecidableEq K] (t : MosaicNode K) : Except String Unit :=
  if (getLeaves t).Nodup then .ok () else .error "Duplicate IDs noticed in mosaic"

/-- Height of a tree: 0 for a Leaf, one more than the taller child for a
Parent. -/
def height : MosaicNode K → Nat
  | .leaf _ => 0
  | .parent _ f s _ => max (height f) (height s) + 1

/-- Shape-balance: the two subtrees of every Parent differ in height by at
most 1. -/
def balancedShape : MosaicNode K → Prop
  | .leaf _ => True
  | .parent _ f s _ => balancedShape f ∧ balancedShape s ∧
      height f ≤ height s + 1 ∧ height s ≤ height f + 1

/-- Split directions strictly alternate with depth starting at `d`: every
Parent at even depth has direction `d`, at odd depth `d.other`. -/
def alternates : MosaicNode K → Direction → Prop
  | .leaf _, _ => True
  | .parent d' f s _, d => d' = d ∧ alternates f d.other ∧ alternates s d.other

/-- The drag-LEFT scenario tree of the spec and of the in-repo test
"should produce correct updates for drag left". -/
def dragScenarioTree : MosaicNode String :=
  .parent .row (.leaf "a") (.parent .column (.leaf "b") (.leaf "c") none) none

/-- The update sequence `createDragToUpdates(dragScenarioTree,
['second','second'], ['first'], LEFT)` produces. -/
def dragScenarioUpdates : List (MosaicUpdate String) :=
  [⟨[.second], .set (.leaf "b")⟩,
   ⟨[.first], .set (.parent .row (.leaf "c") (.leaf "a") none)⟩]

/-- The tree the drag-LEFT scenario produces. -/
def dragScenarioResult : MosaicNode String :=
  .parent .row (.parent .row (.leaf "c") (.leaf "a") none) (.leaf "b") none

/-- A tree on which dragging with the source path a proper prefix of the
destination path corrupts the leaf set. -/
def dragAncestorTree : MosaicNode String :=
  .parent .row (.parent .row (.leaf "a") (.leaf "b") none)
    (.parent .row (.leaf "c") (.leaf "d") none) none

/-- The update sequence `createDragToUpdates(dragAncestorTree, ['first'],
['first','first'], LEFT)` produces. -/
def dragAncestorUpdates : List (MosaicUpdate String) :=
  [⟨[], .set (.parent .row (.leaf "c") (.leaf "d") none)⟩,
   ⟨[.first], .set (.parent .row
      (.parent .row (.leaf "a") (.leaf "b") none) (.leaf "a") none)⟩]

/-- The corrupted tree that drag produces: leaf `a` duplicated, `c` lost. -/
def dragAncestorResult : MosaicNode String :=
  .parent .row
    (.parent .row (.parent .row (.leaf "a") (.leaf "b") none) (.leaf "a") none)
    (.leaf "d") none

/-- The remove scenario tree `{row, first: 1, second: 2}`. -/
def removeScenarioTree : MosaicNode Nat :=
  .parent .row (.leaf 1) (.leaf 2) none

/-- The hide/expand scenario tree `{row, first: 'left', second: 'right'}`. -/
def hideScenarioTree : MosaicNode String :=
  .parent .row (.leaf "left") (.leaf "right") none

/-- A BoundingBox with zero vertical span (`top + bottom = 100`), as arises
when a pane is hidden. -/
def degenerateBox : BoundingBox := ⟨50, 0, 50, 0⟩

/-- The two-leaf tree of the in-repo test "createRemoveUpdate should throw
for non-existent path". -/
def errTestTree : MosaicNode String :=
  .parent .row (.leaf "a") (.leaf "b") none

/-- The duplicate-leaf tree `{row, first: 'x', second: 'x'}` of the spec's
duplicate-ID scenario. -/
def dupLeafTree : MosaicNode String :=
  .parent .row (.leaf "x") (.leaf "x") none

/-- The branch of a Parent's children selected by a branch token. -/
def selectBranch (b : Branch) (f s : MosaicNode K) : MosaicNode K :=
  match b with
  | .first => f
  | .second => s

/-- The pure clone-on-path replacement underlying a `$set` update: replaces
the subtree at `path` with `n` (identity on a path that does not resolve,
which callers never exercise). -/
def setNode : MosaicNode K → List Branch → MosaicNode K → MosaicNode K
  | _, [], n => n
  | .parent d f s sp, .first :: rest, n => .parent d (setNode f rest n) s sp
  | .parent d f s sp, .second :: rest, n => .parent d f (setNode s rest n) sp
  | .leaf k, _ :: _, _ => .leaf k

lemma getNodeAtPath_parent_single (d : Direction) (f s : MosaicNode K)
    (sp : Option ℚ) (b : Branch) :
    getNodeAtPath (.parent d f s sp) [b] = some (selectBranch b f s) := by
  cases b <;> simp [getNodeAtPath, selectBranch]

lemma getNodeAtPath_append (t : MosaicNode K) (p q : List Branch) :
    getNodeAtPath t (p ++ q) = (getNodeAtPath t p).bind (fun m => getNodeAtPath m q) := by
  induction p generalizing t with
  | nil => simp [getNodeAtPath]
  | cons b rest ih =>
    cases t with
    | leaf k => simp [getNodeAtPath]
    | parent d f s sp => cases b <;> simp [getNodeAtPath, ih]

lemma applyUpdateAt_set (t : MosaicNode K) (p : List Branch) (m n : MosaicNode K)
    (h : getNodeAtPath t p = some m) :
    applyUpdateAt t p (.set n) = .ok (setNode t p n) := by
  induction p generalizing t with
  | nil => simp [applyUpdateAt, applySpec, setNode]
  | cons b rest ih =>
    cases t with
    | leaf k => simp [getNodeAtPath] at h
    | parent d f s sp =>
      cases b
      · simp only [getNodeAtPath] at h
        simp [applyUpdateAt, ih f h, setNode]
      · simp only [getNodeAtPath] at h
        simp [applyUpdateAt, ih s h, setNode]

lemma leaves_decomp (t : MosaicNode K) (p : List Branch) (m : MosaicNode K)
    (h : getNodeAtPath t p = some m) :
    ∃ A B : List K, getLeaves t = A ++ getLeaves m ++ B ∧
      ∀ n : MosaicNode K, getLeaves (setNode t p n) = A ++ getLeaves n ++ B := by
  induction p generalizing t with
  | nil =>
    simp only [getNodeAtPath, Option.some_inj] at h
    subst h
    exact ⟨[], [], by simp, fun n => by simp [setNode]⟩
  | cons b rest ih =>
    cases t with
    | leaf k => simp [getNodeAtPath] at h
    | parent d f s sp =>
      cases b
      · simp only [getNodeAtPath] at h
        obtain ⟨A, B, h1, h2⟩ := ih f h
        exact ⟨A, B ++ getLeaves s, by simp [getLeaves, h1],
          fun n => by simp [getLeaves, setNode, h2]⟩
      · simp only [getNodeAtPath] at h
        obtain ⟨A, B, h1, h2⟩ := ih s h
        exact ⟨getLeaves f ++ A, B, by simp [getLeaves, h1],
          fun n => by simp [getLeaves, setNode, h2]⟩

lemma getNodeAtPath_setNode_append (t : MosaicNode K) (p q : List Branch)
    (m n : MosaicNode K) (h : getNodeAtPath t p = some m) :
    getNodeAtPath (setNode t p n) (p ++ q) = getNodeAtPath n q := by
  induction p generalizing t with
  | nil => simp [setNode, getNodeAtPath]
  | cons b rest ih =>
    cases t with
    | leaf k => simp [getNodeAtPath] at h
    | parent d f s sp =>
      cases b
      · simp only [getNodeAtPath] at h
        simpa [setNode, getNodeAtPath] using ih f h
      · simp only [getNodeAtPath] at h
        simpa [setNode, getNodeAtPath] using ih s h

lemma getNodeAtPath_setNode_of_diverge (t : MosaicNode K) (p q : List Branch)
    (n : MosaicNode K) (hpq : ¬ p <+: q) (hqp : ¬ q <+: p) :
    getNodeAtPath (setNode t p n) q = getNodeAtPath t q := by
  induction p generalizing t q with
  | nil => exact absurd (List.nil_prefix) hpq
  | cons a p' ih =>
    cases q with
    | nil => exact absurd (List.nil_prefix) hqp
    | cons b q' =>
      cases t with
      | leaf k => simp [setNode]
      | parent d f s sp =>
        by_cases hab : a = b
        · subst hab
          have hpq' : ¬ p' <+: q' := fun hp => hpq (List.cons_prefix_cons.mpr ⟨rfl, hp⟩)
          have hqp' : ¬ q' <+: p' := fun hq => hqp (List.cons_prefix_cons.mpr ⟨rfl, hq⟩)
          cases a
          · simpa [setNode, getNodeAtPath] using ih f q' hpq' hqp'
          · simpa [setNode, getNodeAtPath] using ih s q' hpq' hqp'
        · cases a <;> cases b <;> simp_all [setNode, getNodeAtPath]

lemma parent_of_path (t : MosaicNode K) (P : List Branch) (b : Branch)
    (m : MosaicNode K) (h : getNodeAtPath t (P ++ [b]) = some m) :
    ∃ d f s sp, getNodeAtPath t P = some (.parent d f s sp) ∧ m = selectBranch b f s := by
  rw [getNodeAtPath_append] at h
  cases hP : getNodeAtPath t P with
  | none => rw [hP] at h; simp at h
  | some x =>
    rw [hP] at h
    cases x with
    | leaf k => cases b <;> simp [getNodeAtPath] at h
    | parent d f s sp =>
      refine ⟨d, f, s, sp, rfl, ?_⟩
      simp only [Option.some_bind, getNodeAtPath_parent_single, Option.some_inj] at h
      exact h.symm

lemma createRemoveUpdate_eq (t : MosaicNode K) (P : List Branch) (b : Branch)
    (d : Direction) (f s : MosaicNode K) (sp : Option ℚ)
    (hP : getNodeAtPath t P = some (.parent d f s sp)) :
    createRemoveUpdate t (P ++ [b]) = .ok ⟨P, .set (selectBranch b.other f s)⟩ := by
  have hsib : getNodeAtPath t (P ++ [b.other]) = some (selectBranch b.other f s) := by
    rw [getNodeAtPath_append, hP, Option.some_bind, getNodeAtPath_parent_single]
  simp [createRemoveUpdate, getAndAssertNodeAtPathExists, List.getLast?_concat,
    List.dropLast_concat, hsib]

lemma createRemoveUpdate_ok_inv (t : MosaicNode K) (p : List Branch)
    (u : MosaicUpdate K) (h : createRemoveUpdate t p = .ok u) :
    ∃ P b d f s sp, p = P ++ [b] ∧ getNodeAtPath t P = some (.parent d f s sp) ∧
      u = ⟨P, .set (selectBranch b.other f s)⟩ := by
  cases hl : p.getLast? with
  | none => simp [createRemoveUpdate, hl] at h
  | some b =>
    have hp : p ≠ [] := by
      intro he
      rw [he] at hl
      simp at hl
    have hdecomp : p.dropLast ++ [b] = p :=
      List.dropLast_append_getLast? b (Option.mem_def.mpr hl)
    cases hsib : getNodeAtPath t (p.dropLast ++ [Branch.other b]) with
    | none =>
      simp [createRemoveUpdate, hl, getAndAssertNodeAtPathExists, hsib] at h
    | some sib =>
      obtain ⟨d, f, s, sp, hP, hm⟩ := parent_of_path t p.dropLast b.other sib hsib
      refine ⟨p.dropLast, b, d, f, s, sp, hdecomp.symm, hP, ?_⟩
      simp [createRemoveUpdate, hl, getAndAssertNodeAtPathExists, hsib] at h
      rw [← h, hm]

lemma updateTree_single_set (t : MosaicNode K) (P : List Branch) (m n : MosaicNode K)
    (h : getNodeAtPath t P = some m) :
    updateTree t [⟨P, .set n⟩] = .ok (setNode t P n) := by
  simp [updateTree, applyUpdateAt_set t P m n h]

lemma getLeaves_mkDragParent (pos : DropPosition) (a b : MosaicNode K) :
    (getLeaves (mkDragParent pos a b) : Multiset K) =
      (getLeaves a : Multiset K) + (getLeaves b : Multiset K) := by
  cases pos <;> simp only [mkDragParent, getLeaves, ← Multiset.coe_add] <;> abel

/-- Removing branch `b` of the parent at `P` (promoting the sibling) loses
exactly the leaves of that branch, as a multiset identity. -/
lemma remove_leaves (t : MosaicNode K) (P : List Branch) (b : Branch)
    (d : Direction) (f s : MosaicNode K) (sp : Option ℚ)
    (hP : getNodeAtPath t P = some (.parent d f s sp)) :
    (getLeaves (setNode t P (selectBranch b.other f s)) : Multiset K) +
      (getLeaves (selectBranch b f s) : Multiset K) = (getLeaves t : Multiset K) := by
  obtain ⟨A, B, h1, h2⟩ := leaves_decomp t P _ hP
  rw [h2, h1]
  cases b <;> simp only [selectBranch, Branch.other, getLeaves, ← Multiset.coe_add] <;> abel

lemma set_after_remove_leaves (t1 : MosaicNode K) (dp : List Branch)
    (destNode src : MosaicNode K) (pos : DropPosition)
    (h : getNodeAtPath t1 dp = some destNode) :
    (getLeaves (setNode t1 dp (mkDragParent pos src destNode)) : Multiset K) =
      (getLeaves t1 : Multiset K) + (getLeaves src : Multiset K) := by
  obtain ⟨A, B, h1, h2⟩ := leaves_decomp t1 dp destNode h
  rw [h2, h1]
  simp only [← Multiset.coe_add, getLeaves_mkDragParent]
  abel

/-- The leaf multiset is preserved by any drag whose update sequence is
produced and applies successfully, provided the source path is not a proper
prefix of the destination path. -/
lemma drag_leaves_aux (t : MosaicNode K) (sp dp : List Branch) (pos : DropPosition)
    (us : List (MosaicUpdate K)) (t' : MosaicNode K)
    (hnd : ¬(sp <+: dp ∧ sp ≠ dp))
    (hcd : createDragToUpdates t sp dp pos = .ok us)
    (hut : updateTree t us = .ok t') :
    (getLeaves t' : Multiset K) = (getLeaves t : Multiset K) := by
  cases hdN : getNodeAtPath t dp with
  | none => simp [createDragToUpdates, getAndAssertNodeAtPathExists, hdN] at hcd
  | some destNode =>
  cases hsN : getNodeAtPath t sp with
  | none => simp [createDragToUpdates, getAndAssertNodeAtPathExists, hdN, hsN] at hcd
  | some sourceNode =>
  simp only [createDragToUpdates, getAndAssertNodeAtPathExists, hdN, hsN] at hcd
  cases hpre : isPathPrefixEqual sp dp dp.length with
  | true =>
    -- destination is an ancestor of the source
    simp only [hpre, if_true] at hcd
    have htake : sp.take dp.length = dp := by
      have := hpre
      simp only [isPathPrefixEqual, beq_iff_eq, List.take_length] at this
      exact this
    cases hru : createRemoveUpdate destNode (sp.drop dp.length) with
    | error e => simp [hru] at hcd
    | ok ru =>
    obtain ⟨R, b, d2, f2, s2, sp2, hrel, hRP, hruEq⟩ :=
      createRemoveUpdate_ok_inv destNode (sp.drop dp.length) ru hru
    subst hruEq
    have hdt := updateTree_single_set destNode R _ (selectBranch b.other f2 s2) hRP
    simp only [hru, hdt, Except.ok.injEq] at hcd
    subst hcd
    -- the single update replaces the destination subtree
    have hsrc : selectBranch b f2 s2 = sourceNode := by
      have hsp : dp ++ sp.drop dp.length = sp := by
        conv_rhs => rw [← List.take_append_drop dp.length sp, htake]
      have h1 : getNodeAtPath destNode (sp.drop dp.length) = some sourceNode := by
        have h0 : getNodeAtPath t (dp ++ sp.drop dp.length) = some sourceNode := by
          rw [hsp]
          exact hsN
        rwa [getNodeAtPath_append, hdN, Option.some_bind] at h0
      rw [hrel, getNodeAtPath_append, hRP, Option.some_bind,
        getNodeAtPath_parent_single, Option.some_inj] at h1
      exact h1
    have hut2 := updateTree_single_set t dp destNode
      (mkDragParent pos sourceNode (setNode destNode R (selectBranch b.other f2 s2))) hdN
    rw [hut2, Except.ok.injEq] at hut
    subst hut
    have hrm := remove_leaves destNode R b d2 f2 s2 sp2 hRP
    rw [hsrc] at hrm
    obtain ⟨A, B, h1, h2⟩ := leaves_decomp t dp destNode hdN
    rw [h2, h1]
    simp only [← Multiset.coe_add, getLeaves_mkDragParent]
    rw [← hrm]
    abel
  | false =>
    -- source removed first, destination path adjusted
    simp only [hpre, if_false, Bool.false_eq_true] at hcd
    have htakene : sp.take dp.length ≠ dp := by
      intro hEq
      have : isPathPrefixEqual sp dp dp.length = true := by
        simp [isPathPrefixEqual, beq_iff_eq, List.take_length, hEq]
      rw [this] at hpre
      cases hpre
    have hspdp : ¬ sp <+: dp := by
      intro hp
      have hEq : sp = dp := by
        by_contra hne
        exact hnd ⟨hp, hne⟩
      exact htakene (by rw [hEq, List.take_length])
    have hdpsp : ¬ dp <+: sp := by
      intro hp
      obtain ⟨r, hr⟩ := hp
      exact htakene (by rw [← hr, List.take_left])
    cases hru : createRemoveUpdate t sp with
    | error e => simp [hru] at hcd
    | ok ru =>
    obtain ⟨P, b, d2, f2, s2, sp2, hspPb, hP, hruEq⟩ :=
      createRemoveUpdate_ok_inv t sp ru hru
    subst hruEq
    simp only [hru, Except.ok.injEq] at hcd
    subst hcd
    have hsplen : sp.length - 1 = P.length := by
      rw [hspPb]
      simp only [List.length_append, List.length_cons, List.length_nil]
      omega
    have hsptake : sp.take P.length = P := by rw [hspPb, List.take_left]
    have hsrc : selectBranch b f2 s2 = sourceNode := by
      rw [hspPb, getNodeAtPath_append, hP, Option.some_bind,
        getNodeAtPath_parent_single, Option.some_inj] at hsN
      exact hsN
    -- the first update removes the source by promoting its sibling
    have happ1 := applyUpdateAt_set t P _ (selectBranch b.other f2 s2) hP
    set t1 := setNode t P (selectBranch b.other f2 s2) with ht1
    set dp' := if isPathPrefixEqual sp dp (sp.length - 1) = true then
        dp.take (sp.length - 1) ++ dp.drop sp.length
      else dp with hdp'
    -- key: the adjusted destination path addresses the original destination node
    have ht1dp : getNodeAtPath t1 dp' = some destNode := by
      cases hpre2 : isPathPrefixEqual sp dp (sp.length - 1) with
      | true =>
        have hdtake : dp.take P.length = P := by
          have := hpre2
          simp only [isPathPrefixEqual, beq_iff_eq, hsplen, hsptake] at this
          exact this.symm
        have hlenle : P.length ≤ dp.length := by
          have := congrArg List.length hdtake
          simp only [List.length_take] at this
          omega
        have hlenlt : P.length < dp.length := by
          rcases Nat.lt_or_ge P.length dp.length with h | h
          · exact h
          · exfalso
            have hdpP : dp = P := by
              have : dp.length = P.length := le_antisymm h hlenle
              rw [← hdtake, ← this, List.take_length]
            exact hdpsp (by rw [hdpP, hspPb]; exact ⟨[b], rfl⟩)
        have hdp_decomp : P ++ dp.drop P.length = dp := by
          conv_rhs => rw [← List.take_append_drop P.length dp, hdtake]
        cases hdrop : dp.drop P.length with
        | nil =>
          exfalso
          have := congrArg List.length hdrop
          simp only [List.length_drop, List.length_nil] at this
          omega
        | cons c rest =>
        have hcb : c = b.other := by
          cases c <;> cases b <;> first
            | rfl
            | · exfalso
                apply hspdp
                refine ⟨rest, ?_⟩
                rw [hspPb, ← hdp_decomp, hdrop]
                simp
        have hdroprest : dp.drop sp.length = rest := by
          have h1 : sp.length = P.length + 1 := by
            rw [hspPb]
            simp only [List.length_append, List.length_cons, List.length_nil]
          have h2 : dp = (P ++ [c]) ++ rest := by
            rw [← hdp_decomp, hdrop]
            simp
          have h3 : P.length + 1 = (P ++ [c]).length := by
            simp only [List.length_append, List.length_cons, List.length_nil]
          rw [h1, h2, h3, List.drop_left]
        have hdp'eq : dp' = P ++ rest := by
          rw [hdp', if_pos hpre2, hsplen, hdtake, hdroprest]
        rw [hdp'eq, ht1]
        rw [getNodeAtPath_setNode_append t P rest _ _ hP]
        have : getNodeAtPath t dp = getNodeAtPath (selectBranch b.other f2 s2) rest := by
          rw [← hdp_decomp, hdrop, ← hcb]
          rw [getNodeAtPath_append, hP, Option.some_bind]
          cases c <;> simp [getNodeAtPath, selectBranch]
        rw [← this, hdN]
      | false =>
        have hdtakene : dp.take P.length ≠ P := by
          intro hEq
          have : isPathPrefixEqual sp dp (sp.length - 1) = true := by
            simp [isPathPrefixEqual, beq_iff_eq, hsplen, hsptake, hEq]
          rw [this] at hpre2
          cases hpre2
        have hPdp : ¬ P <+: dp := by
          intro hp
          obtain ⟨r, hr⟩ := hp
          exact hdtakene (by rw [← hr, List.take_left])
        have hdpP : ¬ dp <+: P := by
          intro hp
          exact hdpsp (hp.trans (by rw [hspPb]; exact ⟨[b], rfl⟩))
        have hdp'eq : dp' = dp := by rw [hdp', if_neg (by simp [hpre2])]
        rw [hdp'eq, ht1, getNodeAtPath_setNode_of_diverge t P dp _ hPdp hdpP, hdN]
    -- the second update wraps {source, destination} at the adjusted path
    have happ2 := applyUpdateAt_set t1 dp' destNode
      (mkDragParent pos sourceNode destNode) ht1dp
    simp only [updateTree, happ1, happ2, Except.ok.injEq] at hut
    subst hut
    rw [set_after_remove_leaves t1 dp' destNode sourceNode pos ht1dp]
    have hrm := remove_leaves t P b d2 f2 s2 sp2 hP
    rw [hsrc] at hrm
    rw [← ht1] at hrm
    exact hrm

lemma applyUpdateAt_setSplit (t : MosaicNode K) (P : List Branch) (d : Direction)
    (f s : MosaicNode K) (sp : Option ℚ) (q : ℚ)
    (h : getNodeAtPath t P = some (.parent d f s sp)) :
    applyUpdateAt t P (.setSplitPercentage q) =
      .ok (setNode t P (.parent d f s (some q))) := by
  induction P generalizing t with
  | nil =>
    simp only [getNodeAtPath, Option.some_inj] at h
    subst h
    simp [applyUpdateAt, applySpec, setNode]
  | cons b rest ih =>
    cases t with
    | leaf k => simp [getNodeAtPath] at h
    | parent d1 f1 s1 sp1 =>
      cases b
      · simp only [getNodeAtPath] at h
        simp [applyUpdateAt, ih f1 h, setNode]
      · simp only [getNodeAtPath] at h
        simp [applyUpdateAt, ih s1 h, setNode]

lemma hide_semantics (t : MosaicNode K) (P : List Branch) (b : Branch)
    (d : Direction) (f s : MosaicNode K) (sp : Option ℚ)
    (h : getNodeAtPath t P = some (.parent d f s sp)) :
    updateTree t [createHideUpdate (P ++ [b])] =
      .ok (setNode t P (.parent d f s (some (if b = .first then 0 else 100)))) := by
  have h1 : createHideUpdate (K := K) (P ++ [b]) =
      ⟨P, .setSplitPercentage (if b = .first then 0 else 100)⟩ := by
    simp only [createHideUpdate, List.getLast?_concat, List.dropLast_concat]
    cases b <;> simp
  rw [h1]
  simp [updateTree, applyUpdateAt_setSplit t P d f s sp _ h]

lemma expand_semantics (t : MosaicNode K) (P : List Branch) (b : Branch)
    (d : Direction) (f s : MosaicNode K) (sp : Option ℚ) (pc : ℚ)
    (h : getNodeAtPath t P = some (.parent d f s sp)) :
    updateTree t [createExpandUpdate (P ++ [b]) pc] =
      .ok (setNode t P (.parent d f s (some (if b = .first then pc else 100 - pc)))) := by
  have h1 : createExpandUpdate (K := K) (P ++ [b]) pc =
      ⟨P, .setSplitPercentage (if b = .first then pc else 100 - pc)⟩ := by
    cases b <;> simp [createExpandUpdate, List.getLast?_concat, List.dropLast_concat]
  rw [h1]
  simp [updateTree, applyUpdateAt_setSplit t P d f s sp _ h]

lemma removeUpdate_leaf (t : MosaicNode K) (p : List Branch) (k : K)
    (u : MosaicUpdate K) (t' : MosaicNode K)
    (hk : getNodeAtPath t p = some (.leaf k))
    (hu : createRemoveUpdate t p = .ok u)
    (ht : updateTree t [u] = .ok t') :
    (getLeaves t' : Multiset K) + {k} = (getLeaves t : Multiset K) := by
  obtain ⟨P, b, d, f, s, sp, hpPb, hP, huEq⟩ := createRemoveUpdate_ok_inv t p u hu
  subst huEq
  rw [updateTree_single_set t P _ _ hP, Except.ok.injEq] at ht
  subst ht
  have hrm := remove_leaves t P b d f s sp hP
  have hsel : selectBranch b f s = .leaf k := by
    rw [hpPb, getNodeAtPath_append, hP, Option.some_bind,
      getNodeAtPath_parent_single, Option.some_inj] at hk
    exact hk
  rw [hsel] at hrm
  simpa [getLeaves] using hrm

lemma getNodeAtPath_none_iff_leaf_on_the_way (t : MosaicNode K) (p : List Branch) :
    getNodeAtPath t p = none ↔
      ∃ q b r, p = q ++ b :: r ∧ ∃ k, getNodeAtPath t q = some (.leaf k) := by
  constructor
  · intro h
    induction p generalizing t with
    | nil => simp [getNodeAtPath] at h
    | cons b rest ih =>
      cases t with
      | leaf k => exact ⟨[], b, rest, rfl, k, rfl⟩
      | parent d f s sp =>
        cases b
        · simp only [getNodeAtPath] at h
          obtain ⟨q, b1, r, hqr, k, hk⟩ := ih f h
          exact ⟨.first :: q, b1, r, by rw [hqr]; rfl,
            k, by simpa [getNodeAtPath] using hk⟩
        · simp only [getNodeAtPath] at h
          obtain ⟨q, b1, r, hqr, k, hk⟩ := ih s h
          exact ⟨.second :: q, b1, r, by rw [hqr]; rfl,
            k, by simpa [getNodeAtPath] using hk⟩
  · rintro ⟨q, b, r, hqr, k, hk⟩
    subst hqr
    rw [getNodeAtPath_append, hk, Option.some_bind]
    simp [getNodeAtPath]

lemma createRemoveUpdate_error_of_none (t : MosaicNode K) (p : List Branch)
    (h : getNodeAtPath t p = none) :
    ∃ e, createRemoveUpdate t p = .error e := by
  cases hl : p.getLast? with
  | none =>
    exact ⟨"Cannot remove the root of the tree", by simp [createRemoveUpdate, hl]⟩
  | some b =>
    have hdecomp : p.dropLast ++ [b] = p :=
      List.dropLast_append_getLast? b (Option.mem_def.mpr hl)
    have hsib : getNodeAtPath t (p.dropLast ++ [Branch.other b]) = none := by
      cases hP : getNodeAtPath t p.dropLast with
      | none => rw [getNodeAtPath_append, hP]; rfl
      | some x =>
        cases x with
        | leaf k =>
          rw [getNodeAtPath_append, hP, Option.some_bind]
          cases b <;> simp [getNodeAtPath, Branch.other]
        | parent d f s sp =>
          exfalso
          rw [← hdecomp, getNodeAtPath_append, hP, Option.some_bind,
            getNodeAtPath_parent_single] at h
          exact Option.some_ne_none _ h
    exact ⟨"Path did not resolve to a node in the tree",
      by simp [createRemoveUpdate, hl, getAndAssertNodeAtPathExists, hsib]⟩

lemma clog2_double (m : Nat) (hm : 1 ≤ m) : Nat.clog 2 (2 * m) = Nat.clog 2 m + 1 := by
  rw [Nat.clog_of_two_le (by norm_num) (by omega)]
  have h : (2 * m + 2 - 1) / 2 = m := by omega
  rw [h]

lemma create_unfold_cons_cons (k1 k2 : K) (rest : List K) (d : Direction) :
    createBalancedTreeFromLeaves (k1 :: k2 :: rest) d =
      match createBalancedTreeFromLeaves
          ((k1 :: k2 :: rest).take (((k1 :: k2 :: rest).length + 1) / 2)) d.other,
        createBalancedTreeFromLeaves
          ((k1 :: k2 :: rest).drop (((k1 :: k2 :: rest).length + 1) / 2)) d.other with
      | .ok f, .ok s => .ok (.parent d f s none)
      | .error e, _ => .error e
      | _, .error e => .error e := by
  rw [createBalancedTreeFromLeaves]

/-- Full behavioural specification of the balanced-tree builder on a
non-empty leaf list: it succeeds, reproduces the leaf list exactly in order,
has height `⌈log₂ n⌉`, is shape-balanced, and its directions alternate
starting at `d`. -/
lemma create_spec : ∀ (n : Nat) (l : List K) (d : Direction), l.length ≤ n → l ≠ [] →
    ∃ t, createBalancedTreeFromLeaves l d = .ok t ∧ getLeaves t = l ∧
      height t = Nat.clog 2 l.length ∧ balancedShape t ∧ alternates t d := by
  intro n
  induction n with
  | zero =>
    intro l d hlen hne
    cases l with
    | nil => exact absurd rfl hne
    | cons a as => simp at hlen
  | succ n ih =>
    intro l d hlen hne
    match l with
    | [k] =>
      refine ⟨.leaf k, by simp [createBalancedTreeFromLeaves], by simp [getLeaves], ?_, ?_, ?_⟩
      · simp [height, Nat.clog_one_right]
      · simp [balancedShape]
      · simp [alternates]
    | k1 :: k2 :: rest =>
      have hn2 : 2 ≤ (k1 :: k2 :: rest).length := by simp
      set L := k1 :: k2 :: rest with hL
      set half := (L.length + 1) / 2 with hhalf
      have hlt : (L.take half).length = half := by
        simp only [List.length_take]
        omega
      have hld : (L.drop half).length = L.length - half := by
        simp only [List.length_drop]
      have hhalf1 : 1 ≤ half := by omega
      have hhalflt : half < L.length := by omega
      have hdrop1 : 1 ≤ L.length - half := by omega
      have htne : L.take half ≠ [] := by
        rw [← List.length_pos]
        omega
      have hdne : L.drop half ≠ [] := by
        rw [← List.length_pos]
        omega
      obtain ⟨f, hfok, hfl, hfh, hfb, hfa⟩ :=
        ih (L.take half) d.other (by omega) htne
      obtain ⟨s, hsok, hsl, hsh, hsb, hsa⟩ :=
        ih (L.drop half) d.other (by omega) hdne
      refine ⟨.parent d f s none, ?_, ?_, ?_, ?_, ?_⟩
      · rw [hL, create_unfold_cons_cons, ← hL, ← hhalf, hfok, hsok]
      · rw [getLeaves, hfl, hsl, List.take_append_drop]
      · rw [height, hfh, hsh, hlt, hld]
        have hmono : Nat.clog 2 (L.length - half) ≤ Nat.clog 2 half :=
          Nat.clog_mono_right 2 (by omega)
        rw [Nat.max_eq_left hmono]
        rw [Nat.clog_of_two_le (by norm_num) hn2]
        have h2 : (L.length + 2 - 1) / 2 = half := by omega
        rw [h2]
      · refine ⟨hfb, hsb, ?_, ?_⟩
        · rw [hfh, hsh, hlt, hld]
          have h1 : half ≤ 2 * (L.length - half) := by omega
          calc Nat.clog 2 half ≤ Nat.clog 2 (2 * (L.length - half)) :=
                Nat.clog_mono_right 2 h1
            _ = Nat.clog 2 (L.length - half) + 1 := clog2_double _ hdrop1
        · rw [hfh, hsh, hlt, hld]
          have := Nat.clog_mono_right 2 (show L.length - half ≤ half by omega)
          omega
      · exact ⟨rfl, hfa, hsa⟩

/-- C1 (amended): for every tree and every drag produced by
`createDragToUpdates` whose update sequence applies successfully — including
the case where the destination path is an ancestor of the source path, but
excluding the case where the source path is a proper prefix of the
destination path (where the code corrupts the tree, see the counterexample)
— the resulting tree's leaves are a permutation of the original leaves; and
applying `createRemoveUpdate` for a valid path to a leaf yields a tree whose
leaf multiset is the original minus exactly that leaf. -/
theorem C1_leaf_conservation :
    (∀ (t : MosaicNode K) (sp dp : List Branch) (pos : DropPosition)
        (us : List (MosaicUpdate K)) (t' : MosaicNode K),
      ¬(sp <+: dp ∧ sp ≠ dp) →
      createDragToUpdates t sp dp pos = .ok us →
      updateTree t us = .ok t' →
      (getLeaves t').Perm (getLeaves t)) ∧
    (∀ (t : MosaicNode K) (p : List Branch) (k : K) (u : MosaicUpdate K)
        (t' : MosaicNode K),
      getNodeAtPath t p = some (.leaf k) →
      createRemoveUpdate t p = .ok u →
      updateTree t [u] = .ok t' →
      (getLeaves t' : Multiset K) + {k} = (getLeaves t : Multiset K)) := by
  constructor
  · intro t sp dp pos us t' hnd hcd hut
    exact Multiset.coe_eq_coe.mp (drag_leaves_aux t sp dp pos us t' hnd hcd hut)
  · intro t p k u t' hk hu ht
    exact removeUpdate_leaf t p k u t' hk hu ht

/-- Witness for C1: the drag-LEFT scenario preserves {a,b,c}, and removing
'left' from the hide scenario tree leaves exactly 'right'. -/
theorem C1_leaf_conservation_witness :
    (getLeaves dragScenarioResult).Perm (getLeaves dragScenarioTree) ∧
    ((getLeaves (MosaicNode.leaf "right") : Multiset String) + {"left"} =
      (getLeaves hideScenarioTree : Multiset String)) :=
  ⟨(C1_leaf_conservation (K := String)).1 dragScenarioTree
      [Branch.second, Branch.second] [Branch.first] DropPosition.left
      dragScenarioUpdates dragScenarioResult (by decide) rfl rfl,
   (C1_leaf_conservation (K := String)).2 hideScenarioTree [Branch.first] "left"
      ⟨[], .set (.leaf "right")⟩ (.leaf "right") rfl rfl rfl⟩

/-- C1 counterexample: when the source path is a proper prefix of the
destination path, the produced updates apply successfully but duplicate the
leaf `a` and lose the leaf `c`, so the result is not a permutation of the
original leaves. -/
theorem C1_counterexample :
    createDragToUpdates dragAncestorTree [Branch.first] [Branch.first, Branch.first]
        DropPosition.left = .ok dragAncestorUpdates ∧
    updateTree dragAncestorTree dragAncestorUpdates = .ok dragAncestorResult ∧
    ¬ (getLeaves dragAncestorResult).Perm (getLeaves dragAncestorTree) :=
  ⟨rfl, rfl, by decide⟩

/-- C2: the drag-LEFT scenario — dragging `c` (path ['second','second']) to
the LEFT of `a` (path ['first']) makes the root's first branch a row Parent
with first `c`, second `a`, and the leaf set stays {a,b,c}. -/
theorem C2_drag_left_scenario :
    createDragToUpdates dragScenarioTree [Branch.second, Branch.second]
        [Branch.first] DropPosition.left = .ok dragScenarioUpdates ∧
    updateTree dragScenarioTree dragScenarioUpdates = .ok dragScenarioResult ∧
    getNodeAtPath dragScenarioResult [Branch.first] =
      some (.parent .row (.leaf "c") (.leaf "a") none) ∧
    (getLeaves dragScenarioResult).Perm ["a", "b", "c"] :=
  ⟨rfl, rfl, rfl, by decide⟩

/-- C3: removing `['first']` from `{row, first: 1, second: 2}` promotes the
sibling: the produced update replaces the root by the bare leaf 2. -/
theorem C3_remove_promotes_sibling :
    createRemoveUpdate removeScenarioTree [Branch.first] =
      .ok ⟨[], .set (.leaf 2)⟩ ∧
    updateTree removeScenarioTree [⟨[], .set (.leaf 2)⟩] = .ok (.leaf 2) :=
  ⟨rfl, rfl⟩

/-- C4: hide sets the parent's splitPercentage to 0 (first branch hidden;
100 for second) and expand sets it to the percentage for a first branch
(100 - percentage for a second); concretely, hiding ['first'] of
`{row, left, right}` gives splitPercentage 0 with both leaves retained, then
expanding ['first'] to 70 gives splitPercentage 70. -/
theorem C4_hide_expand :
    (updateTree hideScenarioTree [createHideUpdate [Branch.first]] =
        .ok (.parent .row (.leaf "left") (.leaf "right") (some 0)) ∧
      updateTree (.parent .row (.leaf "left") (.leaf "right") (some 0))
          [createExpandUpdate [Branch.first] 70] =
        .ok (.parent .row (.leaf "left") (.leaf "right") (some 70))) ∧
    (∀ (t : MosaicNode K) (P : List Branch) (b : Branch) (d : Direction)
        (f s : MosaicNode K) (sp : Option ℚ),
      getNodeAtPath t P = some (.parent d f s sp) →
      updateTree t [createHideUpdate (P ++ [b])] =
        .ok (setNode t P (.parent d f s (some (if b = .first then 0 else 100))))) ∧
    (∀ (t : MosaicNode K) (P : List Branch) (b : Branch) (d : Direction)
        (f s : MosaicNode K) (sp : Option ℚ) (pc : ℚ),
      getNodeAtPath t P = some (.parent d f s sp) →
      updateTree t [createExpandUpdate (P ++ [b]) pc] =
        .ok (setNode t P (.parent d f s (some (if b = .first then pc else 100 - pc))))) := by
  refine ⟨⟨rfl, rfl⟩, ?_, ?_⟩
  · intro t P b d f s sp h
    exact hide_semantics t P b d f s sp h
  · intro t P b d f s sp pc h
    exact expand_semantics t P b d f s sp pc h

/-- Witness for C4: the general hide and expand laws applied to the concrete
two-pane tree at its root parent. -/
theorem C4_hide_expand_witness :
    updateTree hideScenarioTree [createHideUpdate ([] ++ [Branch.first])] =
      .ok (setNode hideScenarioTree [] (.parent .row (.leaf "left") (.leaf "right")
        (some (if Branch.first = Branch.first then 0 else 100)))) ∧
    updateTree hideScenarioTree [createExpandUpdate ([] ++ [Branch.first]) 70] =
      .ok (setNode hideScenarioTree [] (.parent .row (.leaf "left") (.leaf "right")
        (some (if Branch.first = Branch.first then (70 : ℚ) else 100 - 70)))) :=
  ⟨(C4_hide_expand (K := String)).2.1 hideScenarioTree [] Branch.first Direction.row
      (.leaf "left") (.leaf "right") none rfl,
   (C4_hide_expand (K := String)).2.2 hideScenarioTree [] Branch.first Direction.row
      (.leaf "left") (.leaf "right") none 70 rfl⟩

/-- C5: on any non-empty leaf list the builder succeeds with a tree whose
leaves are a permutation of the input, that is shape-balanced, and whose
directions strictly alternate from `firstDirection`; a singleton input
returns the bare leaf; the empty input fails fast with an error. -/
theorem C5_balanced_construction :
    (∀ (l : List K) (d : Direction), l ≠ [] →
      ∃ t, createBalancedTreeFromLeaves l d = .ok t ∧
        (getLeaves t).Perm l ∧ balancedShape t ∧ alternates t d) ∧
    (∀ (k : K) (d : Direction),
      createBalancedTreeFromLeaves [k] d = .ok (.leaf k)) ∧
    (∀ d : Direction, ∃ e,
      createBalancedTreeFromLeaves ([] : List K) d = .error e) := by
  refine ⟨?_, ?_, ?_⟩
  · intro l d hne
    obtain ⟨t, hok, hl, _, hb, ha⟩ := create_spec l.length l d le_rfl hne
    exact ⟨t, hok, hl ▸ List.Perm.refl l, hb, ha⟩
  · intro k d
    simp [createBalancedTreeFromLeaves]
  · intro d
    exact ⟨"Cannot create a balanced tree with no leaves",
      by simp [createBalancedTreeFromLeaves]⟩

/-- Witness for C5 on the three-leaf list ['a','b','c'] starting at row. -/
theorem C5_balanced_construction_witness :
    ∃ t, createBalancedTreeFromLeaves ["a", "b", "c"] Direction.row = .ok t ∧
      (getLeaves t).Perm ["a", "b", "c"] ∧ balancedShape t ∧ alternates t Direction.row :=
  (C5_balanced_construction (K := String)).1 ["a", "b", "c"] Direction.row (by decide)

/-- C6 counterexample: on a BoundingBox with zero span along the split axis
(top + bottom = 100) the round trip fails — the model returns 0 instead of
the input percentage 7 (the JavaScript original divides 0 by 0, yielding
NaN, which likewise differs from 7). -/
theorem C6_counterexample :
    getRelativeSplitPercentage degenerateBox
      (getAbsoluteSplitPercentage degenerateBox 7 Direction.column)
      Direction.column ≠ 7 := by
  simp only [getRelativeSplitPercentage, getAbsoluteSplitPercentage, degenerateBox]
  norm_num

/-- C6 (amended): the round-trip law
`getRelativeSplitPercentage(b, getAbsoluteSplitPercentage(b, p, d), d) = p`
holds for every box, direction, and percentage in [0,100], provided the
box's span along the split axis is nonzero. -/
theorem C6_round_trip :
    ∀ (b : BoundingBox) (p : ℚ) (d : Direction), 0 ≤ p → p ≤ 100 →
      (match d with
       | .column => 100 - b.top - b.bottom ≠ 0
       | .row => 100 - b.right - b.left ≠ 0) →
      getRelativeSplitPercentage b (getAbsoluteSplitPercentage b p d) d = p := by
  intro b p d h0 h1 hspan
  cases d
  · simp only at hspan
    simp only [getRelativeSplitPercentage, getAbsoluteSplitPercentage]
    field_simp
    ring
  · simp only at hspan
    simp only [getRelativeSplitPercentage, getAbsoluteSplitPercentage]
    field_simp
    ring

/-- Witness for C6 on the full-container box at percentage 30. -/
theorem C6_round_trip_witness :
    getRelativeSplitPercentage ⟨0, 0, 0, 0⟩
      (getAbsoluteSplitPercentage ⟨0, 0, 0, 0⟩ 30 Direction.column)
      Direction.column = 30 :=
  C6_round_trip ⟨0, 0, 0, 0⟩ 30 Direction.column (by norm_num) (by norm_num)
    (by norm_num)

/-- C7: `getNodeAtPath` answers `none` exactly when the path descends into a
Leaf before being exhausted and `some` at the end of a fully-consumed valid
path; under the same non-resolving condition `getAndAssertNodeAtPathExists`
and `createRemoveUpdate` fail with a descriptive error instead. -/
theorem C7_lookup_error_discipline :
    (∀ (t : MosaicNode K) (p : List Branch) (n : MosaicNode K),
      getNodeAtPath t p = some n ↔ getAndAssertNodeAtPathExists t p = .ok n) ∧
    (∀ (t : MosaicNode K) (p : List Branch),
      getNodeAtPath t p = none ↔ ∃ e, getAndAssertNodeAtPathExists t p = .error e) ∧
    (∀ (t : MosaicNode K) (p : List Branch),
      getNodeAtPath t p = none ↔
        ∃ q b r, p = q ++ b :: r ∧ ∃ k, getNodeAtPath t q = some (.leaf k)) ∧
    (∀ (t : MosaicNode K) (p : List Branch),
      getNodeAtPath t p = none → ∃ e, createRemoveUpdate t p = .error e) := by
  refine ⟨?_, ?_, ?_, ?_⟩
  · intro t p n
    constructor
    · intro h
      simp [getAndAssertNodeAtPathExists, h]
    · intro h
      cases hg : getNodeAtPath t p with
      | none => simp [getAndAssertNodeAtPathExists, hg] at h
      | some m =>
        simp only [getAndAssertNodeAtPathExists, hg, Except.ok.injEq] at h
        rw [h]
  · intro t p
    constructor
    · intro h
      exact ⟨"Path did not resolve to a node in the tree",
        by simp [getAndAssertNodeAtPathExists, h]⟩
    · rintro ⟨e, he⟩
      cases hg : getNodeAtPath t p with
      | none => rfl
      | some m => simp [getAndAssertNodeAtPathExists, hg] at he
  · intro t p
    exact getNodeAtPath_none_iff_leaf_on_the_way t p
  · intro t p h
    exact createRemoveUpdate_error_of_none t p h

/-- Witness for C7: a resolving lookup on the two-pane test tree, and the
in-repo failing path ['first','first'] on it making `createRemoveUpdate`
error. -/
theorem C7_lookup_error_discipline_witness :
    (getNodeAtPath errTestTree [Branch.first] = some (.leaf "a") ↔
      getAndAssertNodeAtPathExists errTestTree [Branch.first] = .ok (.leaf "a")) ∧
    (∃ e, createRemoveUpdate errTestTree [Branch.first, Branch.first] = .error e) :=
  ⟨(C7_lookup_error_discipline (K := String)).1 errTestTree [Branch.first] (.leaf "a"),
   (C7_lookup_error_discipline (K := String)).2.2.2 errTestTree
      [Branch.first, Branch.first] rfl⟩

/-- C8: `getOtherBranch` swaps first/second and `getOtherDirection` swaps
row/column; both fail with an error on every value outside their two-element
enum. -/
theorem C8_other_branch_direction :
    getOtherBranch "first" = .ok "second" ∧ getOtherBranch "second" = .ok "first" ∧
    getOtherDirection "row" = .ok "column" ∧ getOtherDirection "column" = .ok "row" ∧
    (∀ s : String, s ≠ "first" → s ≠ "second" → ∃ e, getOtherBranch s = .error e) ∧
    (∀ s : String, s ≠ "row" → s ≠ "column" → ∃ e, getOtherDirection s = .error e) := by
  refine ⟨rfl, rfl, rfl, rfl, ?_, ?_⟩
  · intro s h1 h2
    exact ⟨"Branch " ++ s ++ " not a valid branch", by simp [getOtherBranch, h1, h2]⟩
  · intro s h1 h2
    exact ⟨"Direction " ++ s ++ " not a valid direction",
      by simp [getOtherDirection, h1, h2]⟩

/-- Witness for C8 at the invalid token "invalid" (as in the in-repo test). -/
theorem C8_other_branch_direction_witness :
    (∃ e, getOtherBranch "invalid" = .error e) ∧
    (∃ e, getOtherDirection "invalid" = .error e) :=
  ⟨C8_other_branch_direction.2.2.2.2.1 "invalid" (by decide) (by decide),
   C8_other_branch_direction.2.2.2.2.2 "invalid" (by decide) (by decide)⟩

/-- C9: the leaf-uniqueness check errors with a duplicate-ID message exactly
on trees whose leaf keys are not pairwise distinct — in particular on
`{row, 'x', 'x'}` — and succeeds on duplicate-free trees. -/
theorem C9_duplicate_leaf_ids [DecidableEq K] :
    (∃ e, validateLeafUniqueness dupLeafTree = .error e) ∧
    (∀ t : MosaicNode K, ¬ (getLeaves t).Nodup →
      ∃ e, validateLeafUniqueness t = .error e) ∧
    (∀ t : MosaicNode K, (getLeaves t).Nodup → validateLeafUniqueness t = .ok ()) := by
  refine ⟨⟨"Duplicate IDs noticed in mosaic", by rfl⟩, ?_, ?_⟩
  · intro t h
    exact ⟨"Duplicate IDs noticed in mosaic", by simp [validateLeafUniqueness, h]⟩
  · intro t h
    simp [validateLeafUniqueness, h]

/-- Witness for C9: the duplicate tree rejected, the distinct test tree
accepted. -/
theorem C9_duplicate_leaf_ids_witness :
    (∃ e, validateLeafUniqueness dupLeafTree = .error e) ∧
    validateLeafUniqueness errTestTree = .ok () :=
  ⟨(C9_duplicate_leaf_ids (K := String)).2.1 dupLeafTree (by decide),
   (C9_duplicate_leaf_ids (K := String)).2.2 errTestTree (by decide)⟩

/-- C10: the balanced-tree builder reproduces its input exactly, element for
element in the same order, under the depth-first first-then-second
traversal. -/
theorem C10_order_preservation :
    ∀ (l : List K) (d : Direction) (t : MosaicNode K), l ≠ [] →
      createBalancedTreeFromLeaves l d = .ok t → getLeaves t = l := by
  intro l d t hne hok
  obtain ⟨t2, hok2, hl, _, _, _⟩ := create_spec l.length l d le_rfl hne
  have heq : t = t2 := by
    rw [hok] at hok2
    exact (Except.ok.injEq _ _).mp hok2
  rw [heq, hl]

/-- Witness for C10 on the two-leaf list of the in-repo test: first 'a',
second 'b', in order. -/
theorem C10_order_preservation_witness :
    getLeaves (MosaicNode.parent Direction.row (.leaf "a") (.leaf "b") none) = ["a", "b"] :=
  C10_order_preservation ["a", "b"] Direction.row
    (.parent .row (.leaf "a") (.leaf "b") none) (by decide)
    (by simp [createBalancedTreeFromLeaves])

end Mosaic
